import Mathlib

/-!
Shallow embedding of the Jrinx-rs multitask runtime core
(src/kern/modules/multitask/src/runtime.rs and the kernel error
enumeration src/kern/modules/error/src/lib.rs), together with proofs of
the specification claims about it.

Modelling conventions:
* `BTreeMap<InspectorId, Inspector>` is embedded as an association list
  `List (Nat × Inspector)`; `try_insert` refuses duplicate keys, so in all
  reachable states keys are unique and first-match lookup coincides with
  map lookup.
* `VecDeque<InspectorId>` is embedded as `List Nat`, head = queue front,
  `push_back` appends at the tail.
* The per-CPU `Once<Mutex<Pin<Box<Runtime>>>>` cell is embedded as
  `Option (Bool × Runtime)`: `none` when the cell was never set
  (`rt.get()` returns `None`), otherwise the lock flag (`true` = held)
  and the runtime value.
* The pinned `SwitchContext` record is opaque at this layer; only its
  stable address matters, kept as the `Nat` field `switch_context`.
* Hardware effects (halt, send_ipi) are returned as data in an outcome
  record instead of being performed.
-/

set_option autoImplicit false

namespace Jrinx

/-- The kernel error enumeration from src/kern/modules/error/src/lib.rs. -/
inductive InternalError where
  | RepeatInitialization
  | DevProbeError
  | ElfParseError
  | NotEnoughMem
  | InvalidCpuId
  | InvalidVirtAddr
  | DuplicateTaskId
  | InvalidExecutorId
  | DuplicateExecutorId
  | InvalidInspectorId
  | DuplicateInspectorId
  | InvalidInspectorStatus
  | InvalidRuntimeStatus
  | InvalidRuntimeSchedTable
  | DuplicateRuntimeSchedTable
  | InvalidTimedEventStatus
  | InvalidApexName
  | InvalidApexPriority
  | InvalidApexNumCores
  | InvalidSyscallNumber
  /-- Modelled from the spec: the distinguished "lock contention (busy) on the
  non-blocking accessor" error kind.  `Runtime::with_current_try_lock` in
  runtime.rs constructs `InternalError::BusyLock`, but the variant
  declaration itself is outside the provided snapshot of the error module. -/
  | BusyLock
  deriving DecidableEq, Repr

/-- Modelled from the spec: the HAL halt reason; only `NormalExit` is used by
the runtime ("halts normally").  The `jrinx_hal` crate is outside the
snapshot; a second variant keeps the type non-degenerate. -/
inductive HaltReason where
  | NormalExit
  | SysFailure
  deriving DecidableEq, Repr

/-- Modelled from the spec: `InspectorStatus` has "at least a
running/suspended state and `Finished`"; the inspector module is outside the
snapshot.  The runtime only ever compares a status against `Finished`. -/
inductive InspectorStatus where
  | Idle
  | Running
  | Pending
  | Finished
  deriving DecidableEq, Repr

/-- Modelled from the spec: the `Inspector` interface consumed by the
runtime is `id()` and `status()`; its pool of executors is opaque at this
layer and omitted. -/
structure Inspector where
  id : Nat
  status : InspectorStatus
  deriving DecidableEq, Repr

/-- `RuntimeStatus` from runtime.rs. -/
inductive RuntimeStatus where
  | Init
  | Idle
  | Running (id : Nat)
  | Endpoint
  deriving DecidableEq, Repr

/-- First-match lookup in the registry (`BTreeMap::get` on unique keys). -/
def lookupKey : List (Nat × Inspector) → Nat → Option Inspector
  | [], _ => none
  | (k, v) :: rest, id => if k = id then some v else lookupKey rest id

/-- `BTreeMap::contains_key`. -/
def containsKey (m : List (Nat × Inspector)) (id : Nat) : Bool :=
  (lookupKey m id).isSome

/-- `BTreeMap::remove`: drop the (unique) entry with the given key. -/
def eraseKey : List (Nat × Inspector) → Nat → List (Nat × Inspector)
  | [], _ => []
  | (k, v) :: rest, id => if k = id then rest else (k, v) :: eraseKey rest id

/-- In-place mutation of the (unique) entry with the given key, as through
`BTreeMap::get_mut`. -/
def updateKey : List (Nat × Inspector) → Nat → (Inspector → Inspector) → List (Nat × Inspector)
  | [], _, _ => []
  | (k, v) :: rest, id, f => if k = id then (k, f v) :: rest else (k, v) :: updateKey rest id f

/-- The `Runtime` struct from runtime.rs.  `switch_context` holds the stable
address of the pinned switch-context record (`switch_context_addr`). -/
structure Runtime where
  cpu_id : Nat
  inspector_registry : List (Nat × Inspector)
  inspector_queue : List Nat
  inspector_switch_pending : Bool
  status : RuntimeStatus
  switch_context : Nat
  deriving DecidableEq, Repr

namespace Runtime

/-- The freshly allocated runtime built by `Runtime::new` before the root
inspector is registered: empty registry, empty queue, pending flag clear,
status `Init`. -/
def mkRuntime (cpu_id switch_context : Nat) : Runtime :=
  { cpu_id := cpu_id
    inspector_registry := []
    inspector_queue := []
    inspector_switch_pending := false
    status := RuntimeStatus.Init
    switch_context := switch_context }

/-- `Runtime::register_inspector`: `try_insert` fails on a duplicate id with
`DuplicateInspectorId` (the `?` aborts before `push_back`); otherwise insert
and append the id at the queue tail. -/
def register_inspector (rt : Runtime) (inspector : Inspector) : Except InternalError Runtime :=
  if containsKey rt.inspector_registry inspector.id then
    Except.error InternalError.DuplicateInspectorId
  else
    Except.ok { rt with
      inspector_registry := rt.inspector_registry ++ [(inspector.id, inspector)]
      inspector_queue := rt.inspector_queue ++ [inspector.id] }

/-- `Runtime::new`: allocate and register the root inspector (unwrap can
never fail on an empty registry). -/
def new (root_inspector : Inspector) (cpu_id switch_context : Nat) : Except InternalError Runtime :=
  register_inspector (mkRuntime cpu_id switch_context) root_inspector

/-- `Runtime::unregister_inspector`: `remove` yields `None` for an absent id,
turned into `InvalidInspectorId`. -/
def unregister_inspector (rt : Runtime) (id : Nat) : Except InternalError Runtime :=
  if containsKey rt.inspector_registry id then
    Except.ok { rt with inspector_registry := eraseKey rt.inspector_registry id }
  else
    Except.error InternalError.InvalidInspectorId

/-- `Runtime::with_inspector`: run `f` on the registered inspector (`f` may
mutate it, hence also returns the new inspector), or fail with
`InvalidInspectorId`. -/
def with_inspector {R : Type} (rt : Runtime) (id : Nat) (f : Inspector → R × Inspector) :
    Except InternalError (R × Runtime) :=
  match lookupKey rt.inspector_registry id with
  | none => Except.error InternalError.InvalidInspectorId
  | some i =>
    let p := f i
    Except.ok (p.1, { rt with inspector_registry := updateKey rt.inspector_registry id (fun _ => p.2) })

/-- `Runtime::set_inspector_switch_pending`. -/
def set_inspector_switch_pending (rt : Runtime) : Runtime :=
  { rt with inspector_switch_pending := true }

/-- `Runtime::clr_inspector_switch_pending`. -/
def clr_inspector_switch_pending (rt : Runtime) : Runtime :=
  { rt with inspector_switch_pending := false }

/-- `Runtime::set_current_inspector`: `Some id` always ends with status
`Running id` (both match arms write the id); `None` sets `Idle`. -/
def set_current_inspector (rt : Runtime) (id : Option Nat) : Runtime :=
  match id with
  | some id => { rt with status := RuntimeStatus.Running id }
  | none => { rt with status := RuntimeStatus.Idle }

/-- `Runtime::pop_inspector`: `VecDeque::pop_front`. -/
def pop_inspector (rt : Runtime) : Option Nat × Runtime :=
  match rt.inspector_queue with
  | [] => (none, rt)
  | id :: rest => (some id, { rt with inspector_queue := rest })

/-- `Runtime::push_inspector`: refuse ids absent from the registry, else
`push_back`. -/
def push_inspector (rt : Runtime) (id : Nat) : Except InternalError Runtime :=
  if containsKey rt.inspector_registry id then
    Except.ok { rt with inspector_queue := rt.inspector_queue ++ [id] }
  else
    Except.error InternalError.InvalidInspectorId

/-- `Runtime::switch_context_addr`: address of the pinned record. -/
def switch_context_addr (rt : Runtime) : Nat :=
  rt.switch_context

end Runtime

/-- The per-CPU `Once<Mutex<Pin<Box<Runtime>>>>` cell: `none` before
`init` ran on this CPU; otherwise the lock flag (`true` = currently held)
and the runtime. -/
abbrev RtCell := Option (Bool × Runtime)

namespace Runtime

/-- `Runtime::with_current_try_lock`: with interrupts masked, fail with
`InvalidRuntimeStatus` when the cell was never set, with `BusyLock` when
`try_lock` loses, else run `f` under the lock. -/
def with_current_try_lock {R : Type} (cell : RtCell) (f : Runtime → R × Runtime) :
    Except InternalError (R × RtCell) :=
  match cell with
  | none => Except.error InternalError.InvalidRuntimeStatus
  | some (locked, rt) =>
    if locked then Except.error InternalError.BusyLock
    else
      let p := f rt
      Except.ok (p.1, some (false, p.2))

/-- `Runtime::with_current`: with interrupts masked, fail with
`InvalidRuntimeStatus` when the cell was never set, else run `f` under the
lock.  The blocking `lock()` is embedded as succeeding: on this CPU the
spinning caller is the only control flow, so the acquisition completes. -/
def with_current {R : Type} (cell : RtCell) (f : Runtime → R × Runtime) :
    Except InternalError (R × RtCell) :=
  match cell with
  | none => Except.error InternalError.InvalidRuntimeStatus
  | some (_, rt) =>
    let p := f rt
    Except.ok (p.1, some (false, p.2))

/-- The tail of one iteration of the inner scheduling loop of
`Runtime::start`, after `Inspector::run` has returned: clear the switch
pending flag and set the current inspector to `None` (status `Idle`); then
query the inspector status and either unregister (when `Finished`) or
re-enqueue the id.  Every `Result` in this stretch is unwrapped by the
loop, so a failure is a panic, embedded as `none`. -/
def run_epilogue (rt : Runtime) (inspector_id : Nat) : Option Runtime :=
  let rt := rt.clr_inspector_switch_pending
  let rt := rt.set_current_inspector none
  match rt.with_inspector inspector_id (fun is => (decide (is.status = InspectorStatus.Finished), is)) with
  | Except.error _ => none
  | Except.ok (finished, rt) =>
    if finished then (rt.unregister_inspector inspector_id).toOption
    else (rt.push_inspector inspector_id).toOption

end Runtime

/-- Result of one iteration of the inner scheduling loop of
`Runtime::start`. -/
inductive StepResult where
  /-- `pop_inspector` returned `None`: the inner `while let` exits. -/
  | queueEmpty (rt : Runtime)
  /-- An inspector was popped, run, and the epilogue completed. -/
  | ran (id : Nat) (rt : Runtime)
  /-- One of the unwraps in the loop body failed. -/
  | panic
  deriving DecidableEq, Repr

namespace Runtime

/-- One iteration of the inner scheduling loop of `Runtime::start`: pop the
queue head, mark it current (`Running id`), let `Inspector::run` act — its
effect on the popped inspector is the parameter `upd`, and by the premise
of the FIFO claims it performs no other queue or registry mutation — then
run the epilogue. -/
def schedStep (upd : Nat → Inspector → Inspector) (rt : Runtime) : StepResult :=
  match rt.pop_inspector with
  | (none, rt) => StepResult.queueEmpty rt
  | (some inspector_id, rt) =>
    let rt := rt.set_current_inspector (some inspector_id)
    let rt := { rt with
      inspector_registry := updateKey rt.inspector_registry inspector_id (upd inspector_id) }
    match rt.run_epilogue inspector_id with
    | none => StepResult.panic
    | some rt => StepResult.ran inspector_id rt

/-- The ids popped by the first `n` iterations of the inner scheduling loop
(cut short at queue exhaustion or a panic). -/
def schedTrace (upd : Nat → Inspector → Inspector) : Nat → Runtime → List Nat
  | 0, _ => []
  | n + 1, rt =>
    match schedStep upd rt with
    | StepResult.ran id rt => id :: schedTrace upd n rt
    | _ => []

end Runtime

/-- The two addresses handed to the architecture context-switch primitive
`arch::switch`, in positional order. -/
structure SwitchCall where
  first : Nat
  second : Nat
  deriving DecidableEq, Repr

namespace Runtime

/-- `Runtime::switch_yield`: read the runtime switch-context address through
`with_current` and the executor switch-context address through
`Executor::with_current` (the executor module is outside the snapshot, so
its result is a parameter), unwrap both, and invoke
`arch::switch(executor_switch_ctx, runtime_switch_ctx)` — executor address
in the first position, runtime address in the second.  A failed unwrap is a
panic, embedded as `none`. -/
def switch_yield (cell : RtCell) (executor_switch_ctx : Except InternalError Nat) :
    Option SwitchCall :=
  match with_current cell (fun rt => (rt.switch_context_addr, rt)), executor_switch_ctx with
  | Except.ok (r, _), Except.ok e => some { first := e, second := r }
  | _, _ => none

end Runtime

/-- Minimum of a list of naturals, as `Iterator::min`: `none` on an empty
list, else the numerically smallest element. -/
def listMin : List Nat → Option Nat
  | [] => none
  | a :: rest =>
    match listMin rest with
    | none => some a
    | some b => some (min a b)

/-- Everything `Runtime::halt_if_all_finished_or_ipi` does, as data: whether
it halted (and with which reason), the list of IPI targets it sent, whether
an unwrap panicked, and the per-CPU cells after the call. -/
structure HaltOutcome where
  halted : Option HaltReason
  ipiSent : List Nat
  panicked : Bool
  cells' : List (Option Runtime)
  deriving DecidableEq, Repr

/-- Mutation performed through
`guards.into_iter().find(|g| g.cpu_id == cur)`: set the status of the first
live runtime whose `cpu_id` matches to `Endpoint`, in cell order (the
iteration order of the per-CPU array). -/
def setEndpointFirst : List (Option Runtime) → Nat → List (Option Runtime)
  | [], _ => []
  | none :: rest, cur => none :: setEndpointFirst rest cur
  | some rt :: rest, cur =>
    if rt.cpu_id = cur then some { rt with status := RuntimeStatus.Endpoint } :: rest
    else some rt :: setEndpointFirst rest cur

namespace Runtime

/-- `Runtime::halt_if_all_finished_or_ipi`.  `cells` is the per-CPU array
`RUNTIME` (index = CPU id); the guards are the live cells in enumeration
order, all locked together.  If there is exactly one live runtime, or every
live runtime has status `Endpoint`, halt with `NormalExit`.  Otherwise send
an IPI to the minimum `cpu_id` among live `Endpoint` runtimes if any, then
set the status of the first guard whose `cpu_id` is the current CPU id to
`Endpoint` (the `unwrap` on `find` panics when no guard matches). -/
def halt_if_all_finished_or_ipi (cells : List (Option Runtime)) (cur : Nat) : HaltOutcome :=
  let guards := cells.filterMap id
  if guards.length = 1 ∨ ∀ g ∈ guards, g.status = RuntimeStatus.Endpoint then
    { halted := some HaltReason.NormalExit, ipiSent := [], panicked := false, cells' := cells }
  else
    let target := listMin (guards.filterMap
      (fun g => if g.status = RuntimeStatus.Endpoint then some g.cpu_id else none))
    let sent := match target with
      | some c => [c]
      | none => []
    if ∃ g ∈ guards, g.cpu_id = cur then
      { halted := none, ipiSent := sent, panicked := false, cells' := setEndpointFirst cells cur }
    else
      { halted := none, ipiSent := sent, panicked := true, cells' := cells }

end Runtime

/-- Specification device (not from the source): the ids delivered by `n`
pops of a FIFO queue whose popped id is re-enqueued at the tail after each
turn.  The scheduling loop realizes this rotation when no inspector
finishes. -/
def rotTake : Nat → List Nat → List Nat
  | 0, _ => []
  | _ + 1, [] => []
  | n + 1, q :: rest => q :: rotTake n (rest ++ [q])

/-! ### Helper lemmas about the registry operations -/

theorem lookupKey_append (m₁ m₂ : List (Nat × Inspector)) (id : Nat) :
    lookupKey (m₁ ++ m₂) id =
      match lookupKey m₁ id with
      | some v => some v
      | none => lookupKey m₂ id := by
  induction m₁ with
  | nil => simp [lookupKey]
  | cons e rest ih =>
    obtain ⟨k, v⟩ := e
    by_cases h : k = id <;> simp [lookupKey, h, ih]

theorem lookupKey_eq_none (m : List (Nat × Inspector)) (id : Nat)
    (h : id ∉ m.map Prod.fst) : lookupKey m id = none := by
  induction m with
  | nil => simp [lookupKey]
  | cons e rest ih =>
    obtain ⟨k, v⟩ := e
    simp only [List.map_cons, List.mem_cons] at h
    push_neg at h
    simp [lookupKey, Ne.symm h.1, ih h.2]

theorem lookupKey_updateKey (m : List (Nat × Inspector)) (id j : Nat) (f : Inspector → Inspector) :
    lookupKey (updateKey m id f) j =
      if j = id then (lookupKey m id).map f else lookupKey m j := by
  induction m with
  | nil => by_cases h : j = id <;> simp [lookupKey, updateKey, h]
  | cons e rest ih =>
    obtain ⟨k, v⟩ := e
    by_cases hk : k = id
    · by_cases hj : j = id
      · have hkj : k = j := hk.trans hj.symm
        simp [lookupKey, updateKey, hk, hj, hkj]
      · have hkj : ¬ k = j := fun hq => hj (hq.symm.trans hk)
        have hij : ¬ id = j := fun hq => hj hq.symm
        simp [lookupKey, updateKey, hk, hj, hkj, hij]
    · by_cases hkj : k = j
      · have hj : ¬ j = id := fun hq => hk (hkj.trans hq)
        simp [lookupKey, updateKey, hk, hj, hkj]
      · simp [lookupKey, updateKey, hk, hkj, ih]

theorem containsKey_updateKey (m : List (Nat × Inspector)) (id j : Nat) (f : Inspector → Inspector) :
    containsKey (updateKey m id f) j = containsKey m j := by
  by_cases h : j = id <;>
    simp [containsKey, lookupKey_updateKey, h, Option.isSome_map]

theorem updateKey_updateKey (m : List (Nat × Inspector)) (id : Nat)
    (g h : Inspector → Inspector) :
    updateKey (updateKey m id g) id h = updateKey m id (fun v => h (g v)) := by
  induction m with
  | nil => simp [updateKey]
  | cons e rest ih =>
    obtain ⟨k, v⟩ := e
    by_cases hk : k = id <;> simp [updateKey, hk, ih]

theorem updateKey_eq_const (m : List (Nat × Inspector)) (id : Nat) (i : Inspector)
    (f : Inspector → Inspector) (hl : lookupKey m id = some i) :
    updateKey m id f = updateKey m id (fun _ => f i) := by
  induction m with
  | nil => simp [updateKey]
  | cons e rest ih =>
    obtain ⟨k, v⟩ := e
    by_cases hk : k = id
    · rw [show lookupKey ((k, v) :: rest) id = some v by simp [lookupKey, hk]] at hl
      obtain rfl : v = i := Option.some.inj hl
      simp [updateKey, hk]
    · rw [show lookupKey ((k, v) :: rest) id = lookupKey rest id by simp [lookupKey, hk]] at hl
      simp [updateKey, hk, ih hl]

theorem lookupKey_eraseKey_ne (m : List (Nat × Inspector)) (id j : Nat) (h : j ≠ id) :
    lookupKey (eraseKey m id) j = lookupKey m j := by
  induction m with
  | nil => simp [eraseKey]
  | cons e rest ih =>
    obtain ⟨k, v⟩ := e
    by_cases hk : k = id
    · subst hk
      simp [eraseKey, lookupKey, Ne.symm h]
    · simp [eraseKey, lookupKey, hk, ih]

theorem lookupKey_eraseKey_self (m : List (Nat × Inspector)) (id : Nat)
    (hnd : (m.map Prod.fst).Nodup) : lookupKey (eraseKey m id) id = none := by
  induction m with
  | nil => simp [eraseKey, lookupKey]
  | cons e rest ih =>
    obtain ⟨k, v⟩ := e
    simp only [List.map_cons, List.nodup_cons] at hnd
    by_cases hk : k = id
    · rw [show eraseKey ((k, v) :: rest) id = rest by simp [eraseKey, hk]]
      exact lookupKey_eq_none rest id (hk ▸ hnd.1)
    · simp [eraseKey, lookupKey, hk, ih hnd.2]

theorem containsKey_eq_false_iff (m : List (Nat × Inspector)) (id : Nat) :
    containsKey m id = false ↔ lookupKey m id = none := by
  cases h : lookupKey m id <;> simp [containsKey, h]

theorem updateKey_lookup_self (m : List (Nat × Inspector)) (id : Nat) (i : Inspector)
    (hl : lookupKey m id = some i) : updateKey m id (fun _ => i) = m := by
  induction m with
  | nil => simp [updateKey]
  | cons e rest ih =>
    obtain ⟨k, v⟩ := e
    by_cases hk : k = id
    · rw [show lookupKey ((k, v) :: rest) id = some v by simp [lookupKey, hk]] at hl
      obtain rfl : v = i := Option.some.inj hl
      simp [updateKey, hk]
    · rw [show lookupKey ((k, v) :: rest) id = lookupKey rest id by simp [lookupKey, hk]] at hl
      simp [updateKey, hk, ih hl]

/-! ### Helper lemmas about `listMin` -/

theorem listMin_eq_none_iff (l : List Nat) : listMin l = none ↔ l = [] := by
  cases l with
  | nil => simp [listMin]
  | cons a rest =>
    simp only [listMin]
    cases h : listMin rest <;> simp

theorem listMin_mem {l : List Nat} {c : Nat} (h : listMin l = some c) : c ∈ l := by
  induction l generalizing c with
  | nil => simp [listMin] at h
  | cons a rest ih =>
    simp only [listMin] at h
    cases hr : listMin rest with
    | none =>
      rw [hr] at h
      simp only [Option.some.injEq] at h
      simp [← h]
    | some b =>
      rw [hr] at h
      simp only [Option.some.injEq] at h
      rcases min_cases a b with ⟨hm, _⟩ | ⟨hm, _⟩
      · simp [← h, hm]
      · right
        rw [← h, hm]
        exact ih hr

theorem listMin_le {l : List Nat} {c : Nat} (h : listMin l = some c) :
    ∀ x ∈ l, c ≤ x := by
  induction l generalizing c with
  | nil => simp
  | cons a rest ih =>
    intro x hx
    simp only [listMin] at h
    cases hr : listMin rest with
    | none =>
      rw [hr] at h
      simp only [Option.some.injEq] at h
      rw [listMin_eq_none_iff] at hr
      subst hr
      simp only [List.mem_singleton] at hx
      omega
    | some b =>
      rw [hr] at h
      simp only [Option.some.injEq] at h
      rcases List.mem_cons.mp hx with h1 | h1
      · rw [h1, ← h]
        exact min_le_left a b
      · exact le_trans (h ▸ min_le_right a b) (ih hr x h1)

theorem listMin_eq_some_iff {l : List Nat} {c : Nat} :
    listMin l = some c ↔ c ∈ l ∧ ∀ x ∈ l, c ≤ x := by
  constructor
  · intro h
    exact ⟨listMin_mem h, listMin_le h⟩
  · rintro ⟨hmem, hle⟩
    cases h : listMin l with
    | none =>
      rw [listMin_eq_none_iff] at h
      subst h
      simp at hmem
    | some b =>
      have hb := listMin_mem h
      have h1 : c ≤ b := hle b hb
      have h2 : b ≤ c := listMin_le h c hmem
      rw [Nat.le_antisymm h2 h1]

theorem listMin_perm {l l' : List Nat} (h : l.Perm l') : listMin l = listMin l' := by
  cases hl : listMin l' with
  | none =>
    rw [listMin_eq_none_iff] at hl
    subst hl
    rw [listMin_eq_none_iff]
    exact h.eq_nil
  | some c =>
    rw [listMin_eq_some_iff] at hl
    rw [listMin_eq_some_iff]
    exact ⟨h.mem_iff.mpr hl.1, fun x hx => hl.2 x (h.mem_iff.mp hx)⟩

/-! ### Helper lemma about `setEndpointFirst` -/

theorem setEndpointFirst_append (before after : List (Option Runtime)) (rtc : Runtime) (cur : Nat)
    (hb : ∀ ort ∈ before, ∀ rt, ort = some rt → rt.cpu_id ≠ cur)
    (hc : rtc.cpu_id = cur) :
    setEndpointFirst (before ++ some rtc :: after) cur =
      before ++ some { rtc with status := RuntimeStatus.Endpoint } :: after := by
  induction before with
  | nil => simp [setEndpointFirst, hc]
  | cons ort rest ih =>
    have hrest : ∀ o ∈ rest, ∀ rt, o = some rt → rt.cpu_id ≠ cur :=
      fun o ho rt hrt => hb o (List.mem_cons_of_mem _ ho) rt hrt
    cases ort with
    | none => simp [setEndpointFirst, ih hrest]
    | some rt =>
      have : rt.cpu_id ≠ cur := hb (some rt) (List.mem_cons_self _ _) rt rfl
      simp [setEndpointFirst, this, ih hrest]

theorem eraseKey_updateKey (m : List (Nat × Inspector)) (id : Nat) (f : Inspector → Inspector) :
    eraseKey (updateKey m id f) id = eraseKey m id := by
  induction m with
  | nil => simp [updateKey, eraseKey]
  | cons e rest ih =>
    obtain ⟨k, v⟩ := e
    by_cases hk : k = id <;> simp [updateKey, eraseKey, hk, ih]

/-! ### Helper lemmas about the scheduling loop -/

theorem run_epilogue_eq (rt : Runtime) (inspector_id : Nat) (i : Inspector)
    (hl : lookupKey rt.inspector_registry inspector_id = some i) :
    Runtime.run_epilogue rt inspector_id =
      if i.status = InspectorStatus.Finished then
        some { rt with
          inspector_registry := eraseKey rt.inspector_registry inspector_id,
          inspector_switch_pending := false,
          status := RuntimeStatus.Idle }
      else
        some { rt with
          inspector_queue := rt.inspector_queue ++ [inspector_id],
          inspector_switch_pending := false,
          status := RuntimeStatus.Idle } := by
  have hcon : containsKey rt.inspector_registry inspector_id = true := by
    simp [containsKey, hl]
  simp only [Runtime.run_epilogue, Runtime.clr_inspector_switch_pending,
    Runtime.set_current_inspector, Runtime.with_inspector, hl]
  by_cases hf : i.status = InspectorStatus.Finished
  · simp [hf, Runtime.unregister_inspector, hcon, containsKey_updateKey,
      updateKey_lookup_self _ _ _ hl, Except.toOption]
  · simp [hf, Runtime.push_inspector, hcon, containsKey_updateKey,
      updateKey_lookup_self _ _ _ hl, Except.toOption]

theorem schedStep_nil (upd : Nat → Inspector → Inspector) (rt : Runtime)
    (hq : rt.inspector_queue = []) :
    Runtime.schedStep upd rt = StepResult.queueEmpty rt := by
  simp only [Runtime.schedStep, Runtime.pop_inspector, hq]

theorem schedStep_cons (upd : Nat → Inspector → Inspector) (rt : Runtime) (q : Nat)
    (rest : List Nat) (i : Inspector)
    (hq : rt.inspector_queue = q :: rest)
    (hl : lookupKey rt.inspector_registry q = some i) :
    Runtime.schedStep upd rt =
      if (upd q i).status = InspectorStatus.Finished then
        StepResult.ran q { rt with
          inspector_registry := eraseKey rt.inspector_registry q,
          inspector_queue := rest,
          inspector_switch_pending := false,
          status := RuntimeStatus.Idle }
      else
        StepResult.ran q { rt with
          inspector_registry := updateKey rt.inspector_registry q (fun _ => upd q i),
          inspector_queue := rest ++ [q],
          inspector_switch_pending := false,
          status := RuntimeStatus.Idle } := by
  have hm : updateKey rt.inspector_registry q (upd q) =
      updateKey rt.inspector_registry q (fun _ => upd q i) :=
    updateKey_eq_const _ _ i _ hl
  have hl2 : lookupKey (updateKey rt.inspector_registry q (fun _ => upd q i)) q =
      some (upd q i) := by
    rw [lookupKey_updateKey]
    simp [hl]
  simp only [Runtime.schedStep, Runtime.pop_inspector, hq, Runtime.set_current_inspector,
    Runtime.run_epilogue, Runtime.clr_inspector_switch_pending, Runtime.with_inspector,
    hm, hl2]
  by_cases hf : (upd q i).status = InspectorStatus.Finished
  · simp [hf, Runtime.unregister_inspector, containsKey, hl2, updateKey_updateKey,
      eraseKey_updateKey, Except.toOption]
  · simp [hf, Runtime.push_inspector, containsKey, hl2, updateKey_updateKey, Except.toOption]

theorem schedStep_cons_absent (upd : Nat → Inspector → Inspector) (rt : Runtime) (q : Nat)
    (rest : List Nat)
    (hq : rt.inspector_queue = q :: rest)
    (hl : lookupKey rt.inspector_registry q = none) :
    Runtime.schedStep upd rt = StepResult.panic := by
  have hl2 : lookupKey (updateKey rt.inspector_registry q (upd q)) q = none := by
    rw [lookupKey_updateKey]
    simp [hl]
  simp only [Runtime.schedStep, Runtime.pop_inspector, hq, Runtime.set_current_inspector,
    Runtime.run_epilogue, Runtime.clr_inspector_switch_pending, Runtime.with_inspector, hl2]

theorem schedTrace_succ (upd : Nat → Inspector → Inspector) (n : Nat) (rt : Runtime)
    (j : Nat) (rt1 : Runtime)
    (hs : Runtime.schedStep upd rt = StepResult.ran j rt1) :
    Runtime.schedTrace upd (n + 1) rt = j :: Runtime.schedTrace upd n rt1 := by
  simp only [Runtime.schedTrace, hs]

theorem schedStep_ran_cases (upd : Nat → Inspector → Inspector) (rt : Runtime) (j : Nat)
    (rt' : Runtime) (h : Runtime.schedStep upd rt = StepResult.ran j rt') :
    ∃ rest, rt.inspector_queue = j :: rest ∧
      (rt'.inspector_queue = rest ∨ rt'.inspector_queue = rest ++ [j]) ∧
      ∀ id, containsKey rt.inspector_registry id = false →
        containsKey rt'.inspector_registry id = false := by
  cases hq : rt.inspector_queue with
  | nil =>
    rw [schedStep_nil upd rt hq] at h
    exact absurd h (by simp)
  | cons q rest =>
    cases hl : lookupKey rt.inspector_registry q with
    | none =>
      rw [schedStep_cons_absent upd rt q rest hq hl] at h
      exact absurd h (by simp)
    | some i =>
      rw [schedStep_cons upd rt q rest i hq hl] at h
      by_cases hf : (upd q i).status = InspectorStatus.Finished
      · rw [if_pos hf] at h
        injection h with h1 h2
        subst h1
        refine ⟨rest, rfl, Or.inl (by rw [← h2]), ?_⟩
        intro id hid
        rw [← h2]
        rw [containsKey_eq_false_iff] at hid ⊢
        by_cases hiq : id = q
        · subst hiq
          exact absurd hl (by rw [hid]; simp)
        · rw [lookupKey_eraseKey_ne _ _ _ hiq]
          exact hid
      · rw [if_neg hf] at h
        injection h with h1 h2
        subst h1
        refine ⟨rest, rfl, Or.inr (by rw [← h2]), ?_⟩
        intro id hid
        rw [← h2]
        show containsKey (updateKey rt.inspector_registry q (fun _ => upd q i)) id = false
        rw [containsKey_updateKey]
        exact hid

theorem schedTrace_not_mem (upd : Nat → Inspector → Inspector) (n : Nat) :
    ∀ (rt : Runtime) (id : Nat),
      containsKey rt.inspector_registry id = false →
      id ∉ rt.inspector_queue →
      id ∉ Runtime.schedTrace upd n rt := by
  induction n with
  | zero =>
    intro rt id _ _
    simp [Runtime.schedTrace]
  | succ n ih =>
    intro rt id hreg hq
    cases hs : Runtime.schedStep upd rt with
    | queueEmpty rt1 => simp [Runtime.schedTrace, hs]
    | panic => simp [Runtime.schedTrace, hs]
    | ran j rt1 =>
      obtain ⟨rest, hq1, hq2, hcon⟩ := schedStep_ran_cases upd rt j rt1 hs
      have hjne : id ≠ j := by
        rw [hq1] at hq
        exact fun hh => hq (hh ▸ List.mem_cons_self j rest)
      have hq1' : id ∉ rt1.inspector_queue := by
        rw [hq1] at hq
        rcases hq2 with h2 | h2 <;> rw [h2]
        · exact fun hm => hq (List.mem_cons_of_mem _ hm)
        · intro hm
          rcases List.mem_append.mp hm with hm | hm
          · exact hq (List.mem_cons_of_mem _ hm)
          · rw [List.mem_singleton] at hm
            exact hjne hm
      rw [schedTrace_succ upd n rt j rt1 hs]
      intro hmem
      rcases List.mem_cons.mp hmem with hm | hm
      · exact hjne hm
      · exact ih rt1 id (hcon id hreg) hq1' hm

theorem schedTrace_eq_rotTake (upd : Nat → Inspector → Inspector)
    (hupd : ∀ j i, (upd j i).status ≠ InspectorStatus.Finished) :
    ∀ (n : Nat) (rt : Runtime),
      (∀ q ∈ rt.inspector_queue, containsKey rt.inspector_registry q = true) →
      Runtime.schedTrace upd n rt = rotTake n rt.inspector_queue := by
  intro n
  induction n with
  | zero =>
    intro rt _
    simp [Runtime.schedTrace, rotTake]
  | succ n ih =>
    intro rt hreg
    cases hq : rt.inspector_queue with
    | nil =>
      have hs := schedStep_nil upd rt hq
      simp [Runtime.schedTrace, hs, hq, rotTake]
    | cons q rest =>
      have hcq : containsKey rt.inspector_registry q = true := by
        refine hreg q ?_
        rw [hq]
        exact List.mem_cons_self q rest
      obtain ⟨i, hl⟩ : ∃ i, lookupKey rt.inspector_registry q = some i := by
        cases hlq : lookupKey rt.inspector_registry q with
        | none =>
          rw [containsKey, hlq] at hcq
          simp at hcq
        | some i => exact ⟨i, rfl⟩
      have hs := schedStep_cons upd rt q rest i hq hl
      rw [if_neg (hupd q i)] at hs
      rw [schedTrace_succ upd n rt q _ hs]
      rw [ih _ ?_]
      · simp [rotTake]
      · intro j hj
        simp only [List.mem_append, List.mem_singleton] at hj
        show containsKey (updateKey rt.inspector_registry q (fun _ => upd q i)) j = true
        rw [containsKey_updateKey]
        rcases hj with hj | hj
        · refine hreg j ?_
          rw [hq]
          exact List.mem_cons_of_mem _ hj
        · subst hj
          exact hcq

theorem halt_eq_pos (cells : List (Option Runtime)) (cur : Nat)
    (h : (cells.filterMap id).length = 1 ∨
      ∀ g ∈ cells.filterMap id, g.status = RuntimeStatus.Endpoint) :
    Runtime.halt_if_all_finished_or_ipi cells cur =
      { halted := some HaltReason.NormalExit, ipiSent := [], panicked := false,
        cells' := cells } := by
  simp only [Runtime.halt_if_all_finished_or_ipi]
  rw [if_pos h]

theorem halt_eq_found (cells : List (Option Runtime)) (cur : Nat)
    (h : ¬ ((cells.filterMap id).length = 1 ∨
      ∀ g ∈ cells.filterMap id, g.status = RuntimeStatus.Endpoint))
    (h2 : ∃ g ∈ cells.filterMap id, g.cpu_id = cur) :
    Runtime.halt_if_all_finished_or_ipi cells cur =
      { halted := none,
        ipiSent :=
          match listMin ((cells.filterMap id).filterMap
              (fun g => if g.status = RuntimeStatus.Endpoint then some g.cpu_id else none)) with
          | some c => [c]
          | none => [],
        panicked := false, cells' := setEndpointFirst cells cur } := by
  simp only [Runtime.halt_if_all_finished_or_ipi]
  rw [if_neg h, if_pos h2]

theorem halt_eq_notfound (cells : List (Option Runtime)) (cur : Nat)
    (h : ¬ ((cells.filterMap id).length = 1 ∨
      ∀ g ∈ cells.filterMap id, g.status = RuntimeStatus.Endpoint))
    (h2 : ¬ ∃ g ∈ cells.filterMap id, g.cpu_id = cur) :
    Runtime.halt_if_all_finished_or_ipi cells cur =
      { halted := none,
        ipiSent :=
          match listMin ((cells.filterMap id).filterMap
              (fun g => if g.status = RuntimeStatus.Endpoint then some g.cpu_id else none)) with
          | some c => [c]
          | none => [],
        panicked := true, cells' := cells } := by
  simp only [Runtime.halt_if_all_finished_or_ipi]
  rw [if_neg h, if_neg h2]

/-! ### The claims -/

/-- Claim C1: `halt_if_all_finished_or_ipi` performs the `NormalExit` halt
exactly when there is exactly one live per-CPU runtime or every live
runtime has status `Endpoint`, and in that case it sends no IPI and
mutates no status. -/
theorem claim_C1 (cells : List (Option Runtime)) (cur : Nat) :
    ((Runtime.halt_if_all_finished_or_ipi cells cur).halted = some HaltReason.NormalExit ↔
      ((cells.filterMap id).length = 1 ∨
        ∀ g ∈ cells.filterMap id, g.status = RuntimeStatus.Endpoint)) ∧
    (((cells.filterMap id).length = 1 ∨
        ∀ g ∈ cells.filterMap id, g.status = RuntimeStatus.Endpoint) →
      Runtime.halt_if_all_finished_or_ipi cells cur =
        { halted := some HaltReason.NormalExit, ipiSent := [], panicked := false,
          cells' := cells }) := by
  by_cases h : (cells.filterMap id).length = 1 ∨
      ∀ g ∈ cells.filterMap id, g.status = RuntimeStatus.Endpoint
  · rw [halt_eq_pos cells cur h]
    exact ⟨⟨fun _ => h, fun _ => rfl⟩, fun _ => rfl⟩
  · refine ⟨?_, fun hh => absurd hh h⟩
    by_cases h2 : ∃ g ∈ cells.filterMap id, g.cpu_id = cur
    · rw [halt_eq_found cells cur h h2]
      exact iff_of_false (by simp) h
    · rw [halt_eq_notfound cells cur h h2]
      exact iff_of_false (by simp) h

/-- Closed instance of `claim_C1`: a single live runtime halts the system. -/
theorem claim_C1_witness :
    Runtime.halt_if_all_finished_or_ipi [some (Runtime.mkRuntime 0 0)] 0 =
      { halted := some HaltReason.NormalExit, ipiSent := [], panicked := false,
        cells' := [some (Runtime.mkRuntime 0 0)] } :=
  (claim_C1 [some (Runtime.mkRuntime 0 0)] 0).2 (Or.inl (by decide))

/-- Claim C2: in the non-halt case, the coordination step sends a wake-up
IPI to exactly the numerically smallest `cpu_id` among live `Endpoint`
runtimes (and none when no such runtime exists), then sets the calling CPU
own runtime status to `Endpoint` leaving every other cell unchanged; the
IPI target depends only on the multiset of live runtimes, hence is
deterministic under any reordering (lock-acquisition order). -/
theorem claim_C2 (cells before after : List (Option Runtime)) (rtc : Runtime) (cur : Nat)
    (hsplit : cells = before ++ some rtc :: after)
    (hcpu : rtc.cpu_id = cur)
    (hb : ∀ ort ∈ before, ∀ rt, ort = some rt → rt.cpu_id ≠ cur)
    (hnohalt : ¬ ((cells.filterMap id).length = 1 ∨
      ∀ g ∈ cells.filterMap id, g.status = RuntimeStatus.Endpoint)) :
    (Runtime.halt_if_all_finished_or_ipi cells cur).halted = none ∧
    (Runtime.halt_if_all_finished_or_ipi cells cur).panicked = false ∧
    (∀ c, (Runtime.halt_if_all_finished_or_ipi cells cur).ipiSent = [c] ↔
      (c ∈ (cells.filterMap id).filterMap
          (fun g => if g.status = RuntimeStatus.Endpoint then some g.cpu_id else none) ∧
        ∀ x ∈ (cells.filterMap id).filterMap
          (fun g => if g.status = RuntimeStatus.Endpoint then some g.cpu_id else none),
          c ≤ x)) ∧
    ((Runtime.halt_if_all_finished_or_ipi cells cur).ipiSent = [] ↔
      (cells.filterMap id).filterMap
        (fun g => if g.status = RuntimeStatus.Endpoint then some g.cpu_id else none) = []) ∧
    (Runtime.halt_if_all_finished_or_ipi cells cur).cells' =
      before ++ some { rtc with status := RuntimeStatus.Endpoint } :: after ∧
    (∀ cells₂, (cells₂.filterMap id).Perm (cells.filterMap id) →
      (Runtime.halt_if_all_finished_or_ipi cells₂ cur).ipiSent =
        (Runtime.halt_if_all_finished_or_ipi cells cur).ipiSent) := by
  have hmem : rtc ∈ cells.filterMap id := by
    refine List.mem_filterMap.mpr ⟨some rtc, ?_, rfl⟩
    rw [hsplit]
    exact List.mem_append_right _ (List.mem_cons_self _ _)
  have hfind : ∃ g ∈ cells.filterMap id, g.cpu_id = cur := ⟨rtc, hmem, hcpu⟩
  have HE := halt_eq_found cells cur hnohalt hfind
  refine ⟨by rw [HE], by rw [HE], ?_, ?_, ?_, ?_⟩
  · intro c
    rw [HE]
    cases hmin : listMin ((cells.filterMap id).filterMap
        (fun g => if g.status = RuntimeStatus.Endpoint then some g.cpu_id else none)) with
    | none =>
      rw [listMin_eq_none_iff] at hmin
      refine iff_of_false (by simp) ?_
      rintro ⟨hc, -⟩
      rw [hmin] at hc
      exact List.not_mem_nil c hc
    | some m =>
      constructor
      · intro h
        obtain rfl : m = c := by simpa using h
        exact listMin_eq_some_iff.mp hmin
      · intro hc
        have hsome := listMin_eq_some_iff.mpr hc
        rw [hmin] at hsome
        obtain rfl : m = c := Option.some.inj hsome
        rfl
  · rw [HE]
    cases hmin : listMin ((cells.filterMap id).filterMap
        (fun g => if g.status = RuntimeStatus.Endpoint then some g.cpu_id else none)) with
    | none =>
      rw [listMin_eq_none_iff] at hmin
      exact iff_of_true rfl hmin
    | some m =>
      refine iff_of_false (by simp) ?_
      intro hep
      rw [hep] at hmin
      simp [listMin] at hmin
  · rw [HE]
    show setEndpointFirst cells cur = _
    rw [hsplit]
    exact setEndpointFirst_append before after rtc cur hb hcpu
  · intro cells₂ hperm
    have hnohalt₂ : ¬ ((cells₂.filterMap id).length = 1 ∨
        ∀ g ∈ cells₂.filterMap id, g.status = RuntimeStatus.Endpoint) := by
      intro hcon
      apply hnohalt
      rcases hcon with hc | hc
      · exact Or.inl (by rw [← hperm.length_eq]; exact hc)
      · exact Or.inr (fun g hg => hc g (hperm.mem_iff.mpr hg))
    have hminEq : listMin ((cells₂.filterMap id).filterMap
        (fun g => if g.status = RuntimeStatus.Endpoint then some g.cpu_id else none)) =
        listMin ((cells.filterMap id).filterMap
        (fun g => if g.status = RuntimeStatus.Endpoint then some g.cpu_id else none)) :=
      listMin_perm (hperm.filterMap _)
    by_cases hfind₂ : ∃ g ∈ cells₂.filterMap id, g.cpu_id = cur
    · rw [halt_eq_found cells₂ cur hnohalt₂ hfind₂, HE]
      simp only [hminEq]
    · rw [halt_eq_notfound cells₂ cur hnohalt₂ hfind₂, HE]
      simp only [hminEq]

/-- Closed instance of `claim_C2`: with CPU 0 still `Idle` and CPU 1 at
`Endpoint`, the step run by CPU 0 does not halt, targets CPU 1 with the
IPI, and parks CPU 0 at `Endpoint`. -/
theorem claim_C2_witness :
    (Runtime.halt_if_all_finished_or_ipi
      [some { cpu_id := 0, inspector_registry := [], inspector_queue := [],
              inspector_switch_pending := false, status := RuntimeStatus.Idle,
              switch_context := 0 },
       some { cpu_id := 1, inspector_registry := [], inspector_queue := [],
              inspector_switch_pending := false, status := RuntimeStatus.Endpoint,
              switch_context := 0 }] 0).halted = none ∧
    (Runtime.halt_if_all_finished_or_ipi
      [some { cpu_id := 0, inspector_registry := [], inspector_queue := [],
              inspector_switch_pending := false, status := RuntimeStatus.Idle,
              switch_context := 0 },
       some { cpu_id := 1, inspector_registry := [], inspector_queue := [],
              inspector_switch_pending := false, status := RuntimeStatus.Endpoint,
              switch_context := 0 }] 0).ipiSent = [1] ∧
    (Runtime.halt_if_all_finished_or_ipi
      [some { cpu_id := 0, inspector_registry := [], inspector_queue := [],
              inspector_switch_pending := false, status := RuntimeStatus.Idle,
              switch_context := 0 },
       some { cpu_id := 1, inspector_registry := [], inspector_queue := [],
              inspector_switch_pending := false, status := RuntimeStatus.Endpoint,
              switch_context := 0 }] 0).cells' =
      [some { cpu_id := 0, inspector_registry := [], inspector_queue := [],
              inspector_switch_pending := false, status := RuntimeStatus.Endpoint,
              switch_context := 0 },
       some { cpu_id := 1, inspector_registry := [], inspector_queue := [],
              inspector_switch_pending := false, status := RuntimeStatus.Endpoint,
              switch_context := 0 }] :=
  let H := claim_C2
    [some { cpu_id := 0, inspector_registry := [], inspector_queue := [],
            inspector_switch_pending := false, status := RuntimeStatus.Idle,
            switch_context := 0 },
     some { cpu_id := 1, inspector_registry := [], inspector_queue := [],
            inspector_switch_pending := false, status := RuntimeStatus.Endpoint,
            switch_context := 0 }]
    []
    [some { cpu_id := 1, inspector_registry := [], inspector_queue := [],
            inspector_switch_pending := false, status := RuntimeStatus.Endpoint,
            switch_context := 0 }]
    { cpu_id := 0, inspector_registry := [], inspector_queue := [],
      inspector_switch_pending := false, status := RuntimeStatus.Idle,
      switch_context := 0 }
    0 rfl rfl (fun ort hmem => absurd hmem (List.not_mem_nil ort)) (by decide)
  ⟨H.1, (H.2.2.1 1).mpr (by decide), H.2.2.2.2.1⟩

/-- Claim C3: `register_inspector` fails with `DuplicateInspectorId` when the
id is already registered and changes nothing; on a fresh id it succeeds,
the inspector becomes retrievable under its id, no other entry changes, and
the id is appended at the tail of the FIFO queue. -/
theorem claim_C3 (rt : Runtime) (inspector : Inspector) :
    (containsKey rt.inspector_registry inspector.id = true →
      rt.register_inspector inspector = Except.error InternalError.DuplicateInspectorId) ∧
    (containsKey rt.inspector_registry inspector.id = false →
      ∃ rt', rt.register_inspector inspector = Except.ok rt' ∧
        lookupKey rt'.inspector_registry inspector.id = some inspector ∧
        (∀ j, j ≠ inspector.id →
          lookupKey rt'.inspector_registry j = lookupKey rt.inspector_registry j) ∧
        rt'.inspector_queue = rt.inspector_queue ++ [inspector.id] ∧
        rt'.inspector_switch_pending = rt.inspector_switch_pending ∧
        rt'.status = rt.status) := by
  constructor
  · intro h
    simp [Runtime.register_inspector, h]
  · intro h
    refine ⟨{ rt with
        inspector_registry := rt.inspector_registry ++ [(inspector.id, inspector)],
        inspector_queue := rt.inspector_queue ++ [inspector.id] },
      by simp [Runtime.register_inspector, h], ?_, ?_, rfl, rfl, rfl⟩
    · rw [lookupKey_append, (containsKey_eq_false_iff _ _).mp h]
      simp [lookupKey]
    · intro j hj
      rw [lookupKey_append]
      cases hq : lookupKey rt.inspector_registry j <;> simp [lookupKey, Ne.symm hj]

/-- Closed instance of `claim_C3`: registering id 5 into an empty registry
succeeds and enqueues 5. -/
theorem claim_C3_witness :
    ∃ rt', (Runtime.mkRuntime 0 0).register_inspector ⟨5, InspectorStatus.Idle⟩ =
        Except.ok rt' ∧
      lookupKey rt'.inspector_registry 5 = some ⟨5, InspectorStatus.Idle⟩ ∧
      (∀ j, j ≠ 5 → lookupKey rt'.inspector_registry j =
        lookupKey (Runtime.mkRuntime 0 0).inspector_registry j) ∧
      rt'.inspector_queue = (Runtime.mkRuntime 0 0).inspector_queue ++ [5] ∧
      rt'.inspector_switch_pending = (Runtime.mkRuntime 0 0).inspector_switch_pending ∧
      rt'.status = (Runtime.mkRuntime 0 0).status :=
  (claim_C3 (Runtime.mkRuntime 0 0) ⟨5, InspectorStatus.Idle⟩).2 (by decide)

/-- Claim C4: after control returns from the inspector run, the epilogue of
the scheduling-loop iteration clears the switch pending flag, sets the
status to `Idle`, and then unregisters the just-run inspector exactly when
its status is `Finished`, otherwise re-enqueues its id at the queue tail;
the id is re-enqueued iff the status is not `Finished`. -/
theorem claim_C4 (rt : Runtime) (inspector_id : Nat) (i : Inspector)
    (hl : lookupKey rt.inspector_registry inspector_id = some i) :
    ∃ rt', Runtime.run_epilogue rt inspector_id = some rt' ∧
      rt'.inspector_switch_pending = false ∧
      rt'.status = RuntimeStatus.Idle ∧
      (i.status = InspectorStatus.Finished →
        rt'.inspector_registry = eraseKey rt.inspector_registry inspector_id ∧
        rt'.inspector_queue = rt.inspector_queue) ∧
      (i.status ≠ InspectorStatus.Finished →
        rt'.inspector_registry = rt.inspector_registry ∧
        rt'.inspector_queue = rt.inspector_queue ++ [inspector_id]) ∧
      (rt'.inspector_queue = rt.inspector_queue ++ [inspector_id] ↔
        i.status ≠ InspectorStatus.Finished) := by
  rw [run_epilogue_eq rt inspector_id i hl]
  by_cases hf : i.status = InspectorStatus.Finished
  · rw [if_pos hf]
    refine ⟨_, rfl, rfl, rfl, fun _ => ⟨rfl, rfl⟩, fun hn => absurd hf hn, ?_⟩
    constructor
    · intro hq
      have hlen := congrArg List.length hq
      simp at hlen
    · intro hn
      exact absurd hf hn
  · rw [if_neg hf]
    exact ⟨_, rfl, rfl, rfl, fun hff => absurd hff hf, fun _ => ⟨rfl, rfl⟩,
      iff_of_true rfl hf⟩

/-- Closed instance of `claim_C4`: a non-finished inspector is re-enqueued
at the tail with the flag cleared and status `Idle`. -/
theorem claim_C4_witness :
    ∃ rt', Runtime.run_epilogue
      { cpu_id := 0, inspector_registry := [(2, ⟨2, InspectorStatus.Pending⟩)],
        inspector_queue := [7], inspector_switch_pending := true,
        status := RuntimeStatus.Running 2, switch_context := 0 } 2 = some rt' ∧
      rt'.inspector_switch_pending = false ∧
      rt'.status = RuntimeStatus.Idle ∧
      ((⟨2, InspectorStatus.Pending⟩ : Inspector).status = InspectorStatus.Finished →
        rt'.inspector_registry = eraseKey [(2, ⟨2, InspectorStatus.Pending⟩)] 2 ∧
        rt'.inspector_queue = [7]) ∧
      ((⟨2, InspectorStatus.Pending⟩ : Inspector).status ≠ InspectorStatus.Finished →
        rt'.inspector_registry = [(2, ⟨2, InspectorStatus.Pending⟩)] ∧
        rt'.inspector_queue = [7] ++ [2]) ∧
      (rt'.inspector_queue = [7] ++ [2] ↔
        (⟨2, InspectorStatus.Pending⟩ : Inspector).status ≠ InspectorStatus.Finished) :=
  claim_C4
    { cpu_id := 0, inspector_registry := [(2, ⟨2, InspectorStatus.Pending⟩)],
      inspector_queue := [7], inspector_switch_pending := true,
      status := RuntimeStatus.Running 2, switch_context := 0 } 2
    ⟨2, InspectorStatus.Pending⟩ (by decide)

/-- Claim C5: with inspectors A, B, C registered in that order into a fresh
runtime and no other queue mutation, the scheduling loop pops A, B, C in
order, and if no run finishes an inspector the next three pops are again
A, B, C. -/
theorem claim_C5 (cpu ctx : Nat) (ia ib ic : Inspector)
    (hab : ia.id ≠ ib.id) (hbc : ib.id ≠ ic.id) (hac : ia.id ≠ ic.id)
    (upd : Nat → Inspector → Inspector)
    (hupd : ∀ j i, (upd j i).status ≠ InspectorStatus.Finished) :
    ∃ rt1 rt2 rt3,
      (Runtime.mkRuntime cpu ctx).register_inspector ia = Except.ok rt1 ∧
      rt1.register_inspector ib = Except.ok rt2 ∧
      rt2.register_inspector ic = Except.ok rt3 ∧
      Runtime.schedTrace upd 6 rt3 =
        [ia.id, ib.id, ic.id, ia.id, ib.id, ic.id] := by
  refine ⟨
    { cpu_id := cpu, inspector_registry := [(ia.id, ia)], inspector_queue := [ia.id],
      inspector_switch_pending := false, status := RuntimeStatus.Init,
      switch_context := ctx },
    { cpu_id := cpu, inspector_registry := [(ia.id, ia), (ib.id, ib)],
      inspector_queue := [ia.id, ib.id],
      inspector_switch_pending := false, status := RuntimeStatus.Init,
      switch_context := ctx },
    { cpu_id := cpu, inspector_registry := [(ia.id, ia), (ib.id, ib), (ic.id, ic)],
      inspector_queue := [ia.id, ib.id, ic.id],
      inspector_switch_pending := false, status := RuntimeStatus.Init,
      switch_context := ctx },
    ?_, ?_, ?_, ?_⟩
  · simp [Runtime.register_inspector, Runtime.mkRuntime, containsKey, lookupKey]
  · simp [Runtime.register_inspector, containsKey, lookupKey, hab]
  · simp [Runtime.register_inspector, containsKey, lookupKey, hac, hbc]
  · rw [schedTrace_eq_rotTake upd hupd 6]
    · simp [rotTake]
    · intro q hq
      simp only [List.mem_cons, List.not_mem_nil, or_false] at hq
      rcases hq with rfl | rfl | rfl
      · simp [containsKey, lookupKey]
      · simp [containsKey, lookupKey, hab]
      · simp [containsKey, lookupKey, hac, hbc]

/-- Closed instance of `claim_C5`: ids 0, 1, 2 are popped in rotation twice
when no run finishes. -/
theorem claim_C5_witness :
    ∃ rt1 rt2 rt3,
      (Runtime.mkRuntime 0 0).register_inspector ⟨0, InspectorStatus.Idle⟩ =
        Except.ok rt1 ∧
      rt1.register_inspector ⟨1, InspectorStatus.Idle⟩ = Except.ok rt2 ∧
      rt2.register_inspector ⟨2, InspectorStatus.Idle⟩ = Except.ok rt3 ∧
      Runtime.schedTrace (fun _ _ => ⟨9, InspectorStatus.Pending⟩) 6 rt3 =
        [0, 1, 2, 0, 1, 2] :=
  claim_C5 0 0 ⟨0, InspectorStatus.Idle⟩ ⟨1, InspectorStatus.Idle⟩
    ⟨2, InspectorStatus.Idle⟩ (by decide) (by decide) (by decide)
    (fun _ _ => ⟨9, InspectorStatus.Pending⟩)
    (fun _ _ => (by decide : InspectorStatus.Pending ≠ InspectorStatus.Finished))

/-- Claim C6: `unregister_inspector` fails with `InvalidInspectorId` and
changes nothing when the id is absent, and otherwise removes exactly that
registry entry; once the id is out of the registry and out of the queue,
`with_inspector` on it fails with `InvalidInspectorId` and no further
scheduling iteration ever pops it again. -/
theorem claim_C6 (rt : Runtime) (id : Nat) :
    (containsKey rt.inspector_registry id = false →
      rt.unregister_inspector id = Except.error InternalError.InvalidInspectorId) ∧
    (∀ i, lookupKey rt.inspector_registry id = some i →
      rt.unregister_inspector id =
        Except.ok { rt with inspector_registry := eraseKey rt.inspector_registry id } ∧
      (∀ j, j ≠ id →
        lookupKey (eraseKey rt.inspector_registry id) j =
          lookupKey rt.inspector_registry j) ∧
      ((rt.inspector_registry.map Prod.fst).Nodup →
        lookupKey (eraseKey rt.inspector_registry id) id = none)) ∧
    (containsKey rt.inspector_registry id = false → id ∉ rt.inspector_queue →
      (∀ (R : Type) (f : Inspector → R × Inspector),
        rt.with_inspector id f = Except.error InternalError.InvalidInspectorId) ∧
      (∀ upd n, id ∉ Runtime.schedTrace upd n rt)) := by
  refine ⟨?_, ?_, ?_⟩
  · intro h
    simp [Runtime.unregister_inspector, h]
  · intro i hl
    have hcon : containsKey rt.inspector_registry id = true := by
      simp [containsKey, hl]
    refine ⟨by simp [Runtime.unregister_inspector, hcon], ?_, ?_⟩
    · intro j hj
      exact lookupKey_eraseKey_ne _ _ _ hj
    · intro hnd
      exact lookupKey_eraseKey_self _ _ hnd
  · intro h hq
    have hln : lookupKey rt.inspector_registry id = none :=
      (containsKey_eq_false_iff _ _).mp h
    refine ⟨?_, ?_⟩
    · intro R f
      simp [Runtime.with_inspector, hln]
    · intro upd n
      exact schedTrace_not_mem upd n rt id h hq

/-- Closed instance of `claim_C6`: unregistering the finished inspector 4
removes its entry, and afterwards id 4 is never popped again. -/
theorem claim_C6_witness :
    Runtime.unregister_inspector
      { cpu_id := 0, inspector_registry := [(4, ⟨4, InspectorStatus.Finished⟩)],
        inspector_queue := [], inspector_switch_pending := false,
        status := RuntimeStatus.Idle, switch_context := 0 } 4 =
      Except.ok
        { cpu_id := 0, inspector_registry := [],
          inspector_queue := [], inspector_switch_pending := false,
          status := RuntimeStatus.Idle, switch_context := 0 } ∧
    (4 : Nat) ∉ Runtime.schedTrace (fun _ i => i) 3
      { cpu_id := 0, inspector_registry := [],
        inspector_queue := [], inspector_switch_pending := false,
        status := RuntimeStatus.Idle, switch_context := 0 } :=
  ⟨((claim_C6
      { cpu_id := 0, inspector_registry := [(4, ⟨4, InspectorStatus.Finished⟩)],
        inspector_queue := [], inspector_switch_pending := false,
        status := RuntimeStatus.Idle, switch_context := 0 } 4).2.1
      ⟨4, InspectorStatus.Finished⟩ (by decide)).1,
    ((claim_C6
      { cpu_id := 0, inspector_registry := [],
        inspector_queue := [], inspector_switch_pending := false,
        status := RuntimeStatus.Idle, switch_context := 0 } 4).2.2
      (by decide) (by decide)).2 (fun _ i => i) 3⟩

/-- Claim C7: both per-CPU accessors fail with `InvalidRuntimeStatus` before
the per-CPU cell is set; `with_current_try_lock` fails with the busy-lock
error kind (`BusyLock`) instead of blocking when the lock is held; in all
other cases both return `Ok` of the result of `f`. -/
theorem claim_C7 {R : Type} (f : Runtime → R × Runtime) :
    (∀ cell : RtCell, cell = none →
      Runtime.with_current cell f = Except.error InternalError.InvalidRuntimeStatus ∧
      Runtime.with_current_try_lock cell f =
        Except.error InternalError.InvalidRuntimeStatus) ∧
    (∀ rt, Runtime.with_current_try_lock (some (true, rt)) f =
      Except.error InternalError.BusyLock) ∧
    (∀ rt, Runtime.with_current_try_lock (some (false, rt)) f =
      Except.ok ((f rt).1, some (false, (f rt).2))) ∧
    (∀ locked rt, Runtime.with_current (some (locked, rt)) f =
      Except.ok ((f rt).1, some (false, (f rt).2))) := by
  refine ⟨?_, fun rt => rfl, fun rt => rfl, fun locked rt => rfl⟩
  rintro cell rfl
  exact ⟨rfl, rfl⟩

/-- Closed instance of `claim_C7`: the uninitialized cell and the held lock
produce the two distinguished error kinds. -/
theorem claim_C7_witness :
    Runtime.with_current (none : RtCell) (fun rt => (rt.cpu_id, rt)) =
      Except.error InternalError.InvalidRuntimeStatus ∧
    Runtime.with_current_try_lock (some (true, Runtime.mkRuntime 0 0))
        (fun rt => (rt.cpu_id, rt)) =
      Except.error InternalError.BusyLock :=
  ⟨((claim_C7 (fun rt => (rt.cpu_id, rt))).1 none rfl).1,
    (claim_C7 (fun rt => (rt.cpu_id, rt))).2.1 (Runtime.mkRuntime 0 0)⟩

/-- Claim C8, counterexample to the stated argument order: with the runtime
switch-context record at address 1 and the executor switch-context record
at address 2, `switch_yield` invokes `arch::switch` with the executor
address 2 in the first position, not the runtime address 1 as claimed. -/
theorem claim_C8_counterexample :
    Runtime.switch_yield (some (false, Runtime.mkRuntime 0 1)) (Except.ok 2) =
      some { first := 2, second := 1 } ∧
    (Runtime.switch_yield (some (false, Runtime.mkRuntime 0 1)) (Except.ok 2)).map
        SwitchCall.first ≠ some 1 := by
  constructor <;> decide

/-- Claim C8 as amended: `switch_yield` invokes `arch::switch` with the
currently running Executor switch-context address as the first argument and
the enclosing Runtime saved switch-context address as the second. -/
theorem claim_C8 (locked : Bool) (rt : Runtime) (e : Nat) :
    Runtime.switch_yield (some (locked, rt)) (Except.ok e) =
      some { first := e, second := rt.switch_context_addr } := rfl

/-- Claim C9: the internal re-enqueue `push_inspector` fails with
`InvalidInspectorId` and leaves the queue unchanged when the id is not
registered, and appends the id at the queue tail exactly when it is; hence
every id it ever enqueues is registered at the moment of enqueueing. -/
theorem claim_C9 (rt : Runtime) (id : Nat) :
    (containsKey rt.inspector_registry id = false →
      rt.push_inspector id = Except.error InternalError.InvalidInspectorId) ∧
    (containsKey rt.inspector_registry id = true →
      rt.push_inspector id =
        Except.ok { rt with inspector_queue := rt.inspector_queue ++ [id] }) ∧
    (∀ rt', rt.push_inspector id = Except.ok rt' →
      containsKey rt.inspector_registry id = true ∧
      rt'.inspector_queue = rt.inspector_queue ++ [id] ∧
      rt'.inspector_registry = rt.inspector_registry) := by
  refine ⟨?_, ?_, ?_⟩
  · intro h
    simp [Runtime.push_inspector, h]
  · intro h
    simp [Runtime.push_inspector, h]
  · intro rt' h
    by_cases hc : containsKey rt.inspector_registry id
    · simp only [Runtime.push_inspector, hc, if_true, Except.ok.injEq] at h
      exact ⟨hc, by rw [← h], by rw [← h]⟩
    · simp [Runtime.push_inspector, hc] at h

/-- Closed instance of `claim_C9`: a registered id is appended at the tail,
an unregistered one is refused. -/
theorem claim_C9_witness :
    Runtime.push_inspector
      { cpu_id := 0, inspector_registry := [(3, ⟨3, InspectorStatus.Idle⟩)],
        inspector_queue := [9], inspector_switch_pending := false,
        status := RuntimeStatus.Idle, switch_context := 0 } 3 =
      Except.ok
        { cpu_id := 0, inspector_registry := [(3, ⟨3, InspectorStatus.Idle⟩)],
          inspector_queue := [9, 3], inspector_switch_pending := false,
          status := RuntimeStatus.Idle, switch_context := 0 } ∧
    Runtime.push_inspector
      { cpu_id := 0, inspector_registry := [(3, ⟨3, InspectorStatus.Idle⟩)],
        inspector_queue := [9], inspector_switch_pending := false,
        status := RuntimeStatus.Idle, switch_context := 0 } 4 =
      Except.error InternalError.InvalidInspectorId :=
  ⟨(claim_C9 _ 3).2.1 (by decide), (claim_C9 _ 4).1 (by decide)⟩

/-- Claim C10: in the non-halt branch of `halt_if_all_finished_or_ipi`, the
`find`-then-`unwrap` of the calling CPU guard cannot panic provided the
calling CPU cell is set and stores the calling CPU id. -/
theorem claim_C10 (cells : List (Option Runtime)) (cur : Nat) (rtc : Runtime)
    (hcell : cells.get? cur = some (some rtc))
    (hcpu : rtc.cpu_id = cur) :
    (Runtime.halt_if_all_finished_or_ipi cells cur).panicked = false := by
  by_cases h : (cells.filterMap id).length = 1 ∨
      ∀ g ∈ cells.filterMap id, g.status = RuntimeStatus.Endpoint
  · rw [halt_eq_pos cells cur h]
  · have hmem : rtc ∈ cells.filterMap id :=
      List.mem_filterMap.mpr ⟨some rtc, List.get?_mem hcell, rfl⟩
    have hfind : ∃ g ∈ cells.filterMap id, g.cpu_id = cur := ⟨rtc, hmem, hcpu⟩
    rw [halt_eq_found cells cur h hfind]

/-- Closed instance of `claim_C10`: two live runtimes, one not yet at
`Endpoint`, and the coordination step does not panic. -/
theorem claim_C10_witness :
    (Runtime.halt_if_all_finished_or_ipi
      [some (Runtime.mkRuntime 0 0), some (Runtime.mkRuntime 1 0)] 1).panicked = false :=
  claim_C10 [some (Runtime.mkRuntime 0 0), some (Runtime.mkRuntime 1 0)] 1
    (Runtime.mkRuntime 1 0) (by decide) (by decide)

end Jrinx
